import Mathlib

/-!
Verification development for the remote-inference-server repository.

The Python sources are shallowly embedded as executable Lean definitions:

* `src/core/config.py`   : `ModelConfig`, `get_next_available_port`,
  `add_model_to_config`, `get_settings` (settings loading).
* `src/api/app.py`       : `housekeeping_tick` (the idle-eviction sweep).
* `src/services/model_loader.py` : the lock-protected lazy load protocol
  (`LoadStep`) and the loader's module-path construction (`wrapper_load`).
* `src/services/orchestrator.py` : process registry synchronisation
  (`sync_start_restart`, `sync_stop_removed_aux`, `stop_model`) and the
  model-directory scan (`scan_model_directories`).
* `src/utils/model_utils.py` : `detect_model_type_from_dir`.

Python `dict`s are rendered as association lists with first-match lookup,
machine time as `Int`, and external effects (OS processes, the `nuctl`
collaborator, the filesystem) as explicit state or oracle parameters.
-/

/-- Python exceptions that the embedded code can raise.  `configurationError`
renders `src.core.exceptions.ConfigurationError` (constructed with the
offending configuration key), `yamlError` renders `yaml.YAMLError`,
`validationError` renders a pydantic validation failure, and `runtimeError`
renders Python's builtin `RuntimeError`. -/
inductive PyError where
  | yamlError (msg : String)
  | configurationError (key : String)
  | validationError (key : String)
  | runtimeError (msg : String)
deriving DecidableEq, Repr

/-- True exactly for the `ConfigurationError` constructor. -/
def PyError.isConfigError : PyError → Bool
  | .configurationError _ => true
  | _ => false

/-- One entry of the `models:` mapping, after parsing (config.py `ModelConfig`).
The opaque `config` dictionary is rendered as a string-to-string association
list; its contents are never interpreted by the embedded code. -/
structure ModelConfig where
  port : Option Nat
  idle_timeout_seconds : Nat
  implementation : Option String
  interpreter_path : Option String
  config : List (String × String)
deriving DecidableEq, Repr

/-- First-match lookup in an association list (Python dict indexing). -/
def alookup {α : Type} : List (String × α) → String → Option α
  | [], _ => none
  | kv :: rest, k => if kv.1 = k then some kv.2 else alookup rest k

/-- config.py: `DEFAULT_PORT_START = 5001`. -/
def DEFAULT_PORT_START : Nat := 5001

/-- config.py: `DEFAULT_PORT_END = 5100`. -/
def DEFAULT_PORT_END : Nat := 5100

/-- The set of assigned ports, from
`{m.port for m in settings.models.values() if m.port is not None}`.
Rendered as a list; only membership is ever used. -/
def usedPorts (models : List (String × ModelConfig)) : List Nat :=
  models.filterMap (fun nm => nm.2.port)

/-- The loop `for port in range(start, start + k): if port not in used_ports:
return port` with early return; `none` when the loop falls through. -/
def scanPorts (used_ports : List Nat) : Nat → Nat → Option Nat
  | _, 0 => none
  | start, k + 1 =>
      if used_ports.contains start then scanPorts used_ports (start + 1) k
      else some start

/-- config.py `get_next_available_port`.  The Python function first calls
`reload_settings()` (cache cleared, re-read from disk); the `models` argument
here is that freshly reloaded models mapping.  `range(DEFAULT_PORT_START,
DEFAULT_PORT_END)` iterates 5001, ..., 5099 — the end is excluded. -/
def get_next_available_port (models : List (String × ModelConfig)) :
    Except PyError Nat :=
  let used_ports := usedPorts models
  match scanPorts used_ports DEFAULT_PORT_START
      (DEFAULT_PORT_END - DEFAULT_PORT_START) with
  | some p => .ok p
  | none => .error (.runtimeError "No available ports in range 5001-5100")

/-- Modelled from the claim's words (not from the source): a scan of the
INCLUSIVE range `[range_start, range_end]`, skipping used ports and returning
the lowest free integer.  Used only to compare the claim against
`get_next_available_port`. -/
def next_available_inclusive (range_start range_end : Nat)
    (used_ports : List Nat) : Option Nat :=
  scanPorts used_ports range_start (range_end + 1 - range_start)

/-- A model entry holding only an assigned port (defaults elsewhere). -/
def mkPortCfg (p : Nat) : ModelConfig :=
  { port := some p, idle_timeout_seconds := 300, implementation := none,
    interpreter_path := none, config := [] }

/-- A configuration in which every port 5001..5099 is assigned. -/
def fullModels : List (String × ModelConfig) :=
  (List.range' 5001 99).map (fun p => (toString p, mkPortCfg p))

/-- The two-model scenario from the spec: ports 5001 and 5003 assigned. -/
def demoModels : List (String × ModelConfig) :=
  [("modelA", mkPortCfg 5001), ("modelB", mkPortCfg 5003)]

lemma scanPorts_ok (used : List Nat) :
    ∀ k start p, scanPorts used start k = some p →
      start ≤ p ∧ p < start + k ∧ used.contains p = false ∧
        ∀ q, start ≤ q → q < p → used.contains q = true := by
  intro k
  induction k with
  | zero => intro start p h; simp [scanPorts] at h
  | succ k ih =>
      intro start p h
      by_cases hc : used.contains start
      · simp only [scanPorts, hc, if_true] at h
        obtain ⟨h1, h2, h3, h4⟩ := ih (start + 1) p h
        refine ⟨by omega, by omega, h3, ?_⟩
        intro q hq1 hq2
        rcases Nat.eq_or_lt_of_le hq1 with hq | hq
        · simpa [← hq] using hc
        · exact h4 q (by omega) hq2
      · simp only [scanPorts, hc, if_false] at h
        cases h
        exact ⟨le_refl _, by omega, by simpa using hc, fun q hq1 hq2 => by omega⟩

lemma scanPorts_none (used : List Nat) :
    ∀ k start, scanPorts used start k = none →
      ∀ q, start ≤ q → q < start + k → used.contains q = true := by
  intro k
  induction k with
  | zero => intro start _ q hq1 hq2; omega
  | succ k ih =>
      intro start h q hq1 hq2
      by_cases hc : used.contains start
      · simp only [scanPorts, hc, if_true] at h
        rcases Nat.eq_or_lt_of_le hq1 with hq | hq
        · simpa [← hq] using hc
        · exact ih (start + 1) h q (by omega) (by omega)
      · simp only [scanPorts, hc, if_false] at h
        simp at h

lemma scanPorts_all_used (used : List Nat) :
    ∀ k start, (∀ q, start ≤ q → q < start + k → used.contains q = true) →
      scanPorts used start k = none := by
  intro k
  induction k with
  | zero => intro start _; rfl
  | succ k ih =>
      intro start h
      have hc : used.contains start = true := h start (le_refl _) (by omega)
      simp only [scanPorts, hc, if_true]
      exact ih (start + 1) (fun q hq1 hq2 => h q (by omega) (by omega))

/-- C1 (amended): `get_next_available_port` recomputes used ports from the
freshly reloaded declared set and scans the HALF-OPEN range
`[DEFAULT_PORT_START, DEFAULT_PORT_END)`, i.e. 5001..5099: any returned port
lies in that range, is free, and every smaller in-range port is used (lowest
free wins); when every port of 5001..5099 is used it fails with the
RuntimeError port-exhaustion condition; and with ports 5001 and 5003 assigned
the next allocation returns 5002. -/
theorem get_next_available_port_correct :
    (∀ models p, get_next_available_port models = Except.ok p →
        DEFAULT_PORT_START ≤ p ∧ p < DEFAULT_PORT_END ∧
        (usedPorts models).contains p = false ∧
        ∀ q, DEFAULT_PORT_START ≤ q → q < p →
          (usedPorts models).contains q = true) ∧
    (∀ models,
        (∀ q, DEFAULT_PORT_START ≤ q → q < DEFAULT_PORT_END →
          (usedPorts models).contains q = true) →
        get_next_available_port models =
          Except.error (PyError.runtimeError
            "No available ports in range 5001-5100")) ∧
    get_next_available_port demoModels = Except.ok 5002 := by
  refine ⟨?_, ?_, by rfl⟩
  · intro models p h
    unfold get_next_available_port at h
    rcases hscan : scanPorts (usedPorts models) DEFAULT_PORT_START
        (DEFAULT_PORT_END - DEFAULT_PORT_START) with _ | q
    · simp [hscan] at h
    · simp only [hscan] at h
      cases h
      have := scanPorts_ok (usedPorts models) _ _ _ hscan
      exact ⟨this.1, by have := this.2.1; omega, this.2.2.1, this.2.2.2⟩
  · intro models h
    unfold get_next_available_port
    have : scanPorts (usedPorts models) DEFAULT_PORT_START
        (DEFAULT_PORT_END - DEFAULT_PORT_START) = none := by
      apply scanPorts_all_used
      intro q hq1 hq2
      exact h q hq1 (by unfold DEFAULT_PORT_START DEFAULT_PORT_END at *; omega)
    simp [this]

/-- Witness for C1: the amended theorem instantiated at the concrete two-model
scenario, every hypothesis discharged by evaluation. -/
theorem get_next_available_port_correct_witness :
    DEFAULT_PORT_START ≤ 5002 ∧ 5002 < DEFAULT_PORT_END ∧
    (usedPorts demoModels).contains 5002 = false ∧
    ∀ q, DEFAULT_PORT_START ≤ q → q < 5002 →
      (usedPorts demoModels).contains q = true :=
  get_next_available_port_correct.1 demoModels 5002 (by rfl)

/-- Counterexample for C1 as stated: with every port of 5001..5099 assigned,
a scan of the inclusive range `[5001, 5100]` (the claim's wording) would
return the free port 5100, but the code's `range(5001, 5100)` excludes 5100
and `get_next_available_port` raises the RuntimeError instead. -/
theorem get_next_available_port_inclusive_counterexample :
    next_available_inclusive DEFAULT_PORT_START DEFAULT_PORT_END
        (usedPorts fullModels) = some 5100 ∧
    get_next_available_port fullModels =
      Except.error (PyError.runtimeError
        "No available ports in range 5001-5100") :=
  ⟨by rfl, by rfl⟩

/-! ## app.py: module-level worker state and the housekeeping sweep -/

/-- The module-level globals of `src/api/app.py` relevant to one worker:
`has_model` is the truthiness of `_model_instance`, `loaded` is
`_model_instance.instance is not None` (the Loaded state of the
LazyResource), together with `_last_access_time` and `_idle_timeout`.
Time values are embedded as integers; only their ordering matters. -/
structure AppState where
  has_model : Bool
  loaded : Bool
  last_access_time : Int
  idle_timeout : Int
deriving DecidableEq, Repr

/-- One iteration of `_housekeeping_loop` observed at time `now`:
if a model instance exists and is loaded and
`now - last_access_time > idle_timeout`, call `unload()` (which clears
`instance` under the lock); otherwise do nothing. -/
def housekeeping_tick (now : Int) (s : AppState) : AppState :=
  if s.has_model && s.loaded then
    if s.idle_timeout < now - s.last_access_time then
      { s with loaded := false }
    else s
  else s

/-- C2: a sweep tick unloads a Loaded resource exactly when
`now - last_access_time` strictly exceeds `idle_timeout`; it leaves the
state completely untouched while `now - last_access_time <= idle_timeout`,
it never acts on an Unloaded resource, and it never changes the timestamp or
the timeout. -/
theorem housekeeping_eviction_correct (now : Int) (s : AppState)
    (h : s.has_model = true) :
    ((housekeeping_tick now s).loaded = false ↔
      (s.loaded = false ∨ s.idle_timeout < now - s.last_access_time)) ∧
    (s.loaded = true → now - s.last_access_time ≤ s.idle_timeout →
      housekeeping_tick now s = s) ∧
    (s.loaded = false → housekeeping_tick now s = s) ∧
    (housekeeping_tick now s).has_model = s.has_model ∧
    (housekeeping_tick now s).last_access_time = s.last_access_time ∧
    (housekeeping_tick now s).idle_timeout = s.idle_timeout := by
  rcases hl : s.loaded with _ | _
  · have ht : housekeeping_tick now s = s := by
      unfold housekeeping_tick; simp [hl]
    rw [ht]
    refine ⟨by simp [hl], fun _ _ => rfl, fun _ => rfl, rfl, rfl, rfl⟩
  · by_cases hc : s.idle_timeout < now - s.last_access_time
    · have ht : housekeeping_tick now s = { s with loaded := false } := by
        unfold housekeeping_tick; simp [hl, h, hc]
      rw [ht]
      refine ⟨by simp [hl, hc], ?_, ?_, rfl, rfl, rfl⟩
      · intro _ h2; exact absurd hc (by omega)
      · intro h1; simp [hl] at h1
    · have ht : housekeeping_tick now s = s := by
        unfold housekeeping_tick; simp [hl, h, hc]
      rw [ht]
      refine ⟨?_, fun _ _ => rfl, fun _ => rfl, rfl, rfl, rfl⟩
      simp [hl]
      omega

/-- A concrete loaded worker state: loaded at time 0, timeout 5. -/
def sweepDemoState : AppState :=
  { has_model := true, loaded := true, last_access_time := 0, idle_timeout := 5 }

/-- Witness for C2: the eviction theorem instantiated at time 10 on a worker
loaded at time 0 with idle timeout 5. -/
theorem housekeeping_eviction_correct_witness :
    sweepDemoState.has_model = true ∧
    (((housekeeping_tick 10 sweepDemoState).loaded = false ↔
      (sweepDemoState.loaded = false ∨
        sweepDemoState.idle_timeout < 10 - sweepDemoState.last_access_time)) ∧
    (sweepDemoState.loaded = true →
      10 - sweepDemoState.last_access_time ≤ sweepDemoState.idle_timeout →
      housekeeping_tick 10 sweepDemoState = sweepDemoState) ∧
    (sweepDemoState.loaded = false →
      housekeeping_tick 10 sweepDemoState = sweepDemoState) ∧
    (housekeeping_tick 10 sweepDemoState).has_model = sweepDemoState.has_model ∧
    (housekeeping_tick 10 sweepDemoState).last_access_time =
      sweepDemoState.last_access_time ∧
    (housekeeping_tick 10 sweepDemoState).idle_timeout =
      sweepDemoState.idle_timeout) :=
  ⟨rfl, housekeeping_eviction_correct 10 sweepDemoState rfl⟩

/-! ## config.py: add_model_to_config and orchestrator registration -/

/-- Python truthiness of an `Optional[str]` value (`None` and the empty
string are falsy). -/
def pyTruthyStr : Option String → Bool
  | none => false
  | some s => if s = "" then false else true

/-- Python `dict.update`: keys already in `base` keep their position and get
the new value; keys only in `upd` are appended. -/
def dictUpdate (base upd : List (String × String)) : List (String × String) :=
  base.map (fun kv =>
    match alookup upd kv.1 with
    | some v => (kv.1, v)
    | none => kv) ++
  upd.filter (fun kv => (alookup base kv.1).isNone)

/-- Assignment to an existing key of a Python dict: the entry keeps its
position, its value is replaced. -/
def setEntry {α : Type} (l : List (String × α)) (k : String) (v : α) :
    List (String × α) :=
  l.map (fun kv => if kv.1 = k then (k, v) else kv)

/-- config.py `add_model_to_config`.  The function re-reads the persisted
document, mutates its models mapping and writes it back; `models` is that
on-disk models mapping.  If the model already exists its `port` and
`idle_timeout_seconds` are overwritten, `implementation` is overwritten when
the argument is truthy, and `config` is merged when `config_dict` is truthy;
otherwise a fresh entry is appended with the documented defaults. -/
def add_model_to_config (model_name : String) (port : Nat)
    (idle_timeout_seconds : Nat) (implementation : Option String)
    (config_dict : Option (List (String × String)))
    (models : List (String × ModelConfig)) : List (String × ModelConfig) :=
  match alookup models model_name with
  | some existing =>
      let e1 := { existing with
        port := some port,
        idle_timeout_seconds := idle_timeout_seconds }
      let e2 := if pyTruthyStr implementation then
                  { e1 with implementation := implementation }
                else e1
      let e3 := match config_dict with
        | some cd => if cd.isEmpty then e2
                     else { e2 with config := dictUpdate e2.config cd }
        | none => e2
      setEntry models model_name e3
  | none =>
      let impl_val : String :=
        match implementation with
        | some s => if s = "" then model_name else s
        | none => model_name
      let config_val : List (String × String) :=
        match config_dict with
        | some cd => if cd.isEmpty then [("weights", "")] else cd
        | none => [("weights", "")]
      models ++ [(model_name,
        { port := some port,
          idle_timeout_seconds := idle_timeout_seconds,
          implementation := some impl_val,
          interpreter_path := none,
          config := config_val })]

/-- orchestrator.py `_register_if_needed`.  The parsed `settings.models` and
the on-disk document are both rendered by `models` (the tick reloads settings
immediately before registering).  A model with a port is left alone;
otherwise a port is allocated and persisted via `add_model_to_config`, with
the pre-existing idle timeout (default 300) and `implementation=model_name`.
Allocation failure is caught and logged.  Returns the updated document and
whether it changed. -/
def register_if_needed (model_name : String)
    (models : List (String × ModelConfig)) :
    List (String × ModelConfig) × Bool :=
  match alookup models model_name with
  | some m_cfg =>
      match m_cfg.port with
      | some _ => (models, false)
      | none =>
          match get_next_available_port models with
          | .ok port =>
              (add_model_to_config model_name port m_cfg.idle_timeout_seconds
                (some model_name) none models, true)
          | .error _ => (models, false)
  | none =>
      match get_next_available_port models with
      | .ok port =>
          (add_model_to_config model_name port 300 (some model_name) none
            models, true)
      | .error _ => (models, false)

lemma alookup_setEntry {α : Type} (l : List (String × α)) (k : String)
    (v : α) : alookup (setEntry l k v) k = (alookup l k).map (fun _ => v) := by
  induction l with
  | nil => rfl
  | cons kv rest ih =>
      by_cases hk : kv.1 = k
      · simp [setEntry, alookup, hk]
      · simp only [setEntry, List.map_cons, alookup, hk, if_false]
        simpa [setEntry] using ih

/-- C4 (amended): during registration of a declared model that lacks a port,
the allocated port is persisted and the pre-existing idle timeout,
interpreter path and generic config are left unchanged, but the
`implementation` field is overwritten with the model's own name (so it is
preserved only when it already equals the name). -/
theorem register_if_needed_frame (models : List (String × ModelConfig))
    (name : String) (mc : ModelConfig) (p : Nat)
    (hname : name ≠ "")
    (hfound : alookup models name = some mc)
    (hport : mc.port = none)
    (halloc : get_next_available_port models = Except.ok p) :
    alookup (register_if_needed name models).1 name =
      some { mc with port := some p, implementation := some name } := by
  unfold register_if_needed
  simp only [hfound, hport, halloc]
  unfold add_model_to_config
  have htruthy : pyTruthyStr (some name) = true := by
    simp [pyTruthyStr, hname]
  simp only [hfound, htruthy, if_true, alookup_setEntry, Option.map_some]
  rfl

/-- A declared model without a port whose implementation field names a
different folder. -/
def c4Models : List (String × ModelConfig) :=
  [("m", { port := none, idle_timeout_seconds := 120,
           implementation := some "other", interpreter_path := none,
           config := [] })]

/-- Witness for C4: the amended frame theorem instantiated on `c4Models`. -/
theorem register_if_needed_frame_witness :
    alookup (register_if_needed "m" c4Models).1 "m" =
      some { port := some 5001, idle_timeout_seconds := 120,
             implementation := some "m", interpreter_path := none,
             config := [] } :=
  register_if_needed_frame c4Models "m"
    { port := none, idle_timeout_seconds := 120,
      implementation := some "other", interpreter_path := none, config := [] }
    5001 (by decide) (by rfl) rfl (by rfl)

/-- Counterexample for C4 as stated: registering the port-less model `m`,
whose declaration carries `implementation = "other"`, persists the new port
and keeps the idle timeout, but rewrites the implementation field to `"m"` —
it is not left unchanged. -/
theorem register_if_needed_impl_counterexample :
    (alookup c4Models "m").map ModelConfig.implementation =
      some (some "other") ∧
    (alookup (register_if_needed "m" c4Models).1 "m").map
      ModelConfig.implementation = some (some "m") ∧
    (alookup (register_if_needed "m" c4Models).1 "m").map
      ModelConfig.idle_timeout_seconds = some 120 ∧
    (alookup (register_if_needed "m" c4Models).1 "m").map
      ModelConfig.port = some (some 5001) := by
  refine ⟨rfl, ?_, ?_, ?_⟩ <;> rfl

/-! ## config.py: settings loading (load_yaml_config + get_settings) -/

/-- Content of the persisted configuration document as the loader sees it:
a document the YAML parser rejects (`yaml.safe_load` raises `yaml.YAMLError`
inside `load_yaml_config`), a parseable document whose values fail pydantic
validation in `Settings(**yaml_config)` (with the offending key), or a valid
document carrying its models mapping. -/
inductive FileContent where
  | malformed (msg : String)
  | invalidDoc (key : String)
  | doc (models : List (String × ModelConfig))
deriving DecidableEq, Repr

/-- Parsed application settings (config.py `Settings`); of its fields only
the models mapping is relevant to the claims. -/
structure Settings where
  models : List (String × ModelConfig)
deriving DecidableEq, Repr

/-- config.py `get_settings` composed with `load_yaml_config`, reading a
configuration file whose content is `file` (`none` means the file does not
exist).  A missing file yields the empty document `{}` and hence default
settings with no models; a malformed document propagates the YAML parser's
error; a schema-invalid document propagates pydantic's validation error.
No branch constructs a `ConfigurationError`. -/
def get_settings (file : Option FileContent) : Except PyError Settings :=
  match file with
  | none => .ok { models := [] }
  | some (.malformed msg) => .error (.yamlError msg)
  | some (.invalidDoc key) => .error (.validationError key)
  | some (.doc models) => .ok { models := models }

/-- C8: loading when the persisted file does not exist returns settings with
an empty declared set rather than raising an error. -/
theorem get_settings_missing_file_empty :
    get_settings none = Except.ok { models := [] } := rfl

/-- C7 (amended): a malformed persisted document surfaces as the YAML
parser's own error (and a schema-invalid one as a pydantic validation
error); no load outcome is ever the repository's `ConfigurationError`, which
is defined but never raised. -/
theorem get_settings_malformed_error (msg : String) :
    get_settings (some (FileContent.malformed msg)) =
      Except.error (PyError.yamlError msg) ∧
    ∀ file e, get_settings file = Except.error e → e.isConfigError = false := by
  refine ⟨rfl, ?_⟩
  intro file e h
  rcases file with _ | f
  · simp [get_settings] at h
  · rcases f with m | k | ms <;> simp [get_settings] at h <;>
      simp [← h, PyError.isConfigError]

/-- Witness for C7: the amended theorem applied to a concrete malformed
document. -/
theorem get_settings_malformed_error_witness :
    get_settings (some (FileContent.malformed "bad token")) =
      Except.error (PyError.yamlError "bad token") ∧
    (PyError.yamlError "bad token").isConfigError = false :=
  ⟨(get_settings_malformed_error "bad token").1,
   (get_settings_malformed_error "bad token").2
     (some (FileContent.malformed "bad token"))
     (PyError.yamlError "bad token") rfl⟩

/-- Counterexample for C7 as stated: on a malformed document `load` raises
the YAML parser's error, which is not a `ConfigurationError` (no
`ConfigurationError` is ever constructed by the loading code). -/
theorem get_settings_not_configuration_error_counterexample :
    get_settings (some (FileContent.malformed "bad token")) =
      Except.error (PyError.yamlError "bad token") ∧
    (PyError.yamlError "bad token").isConfigError = false := by
  exact ⟨rfl, rfl⟩

/-! ## Filesystem model, directory scan and the lazy loader's module path -/

instance {ε α : Type} [DecidableEq ε] [DecidableEq α] :
    DecidableEq (Except ε α) := fun a b =>
  match a, b with
  | .ok x, .ok y =>
      if h : x = y then isTrue (by rw [h])
      else isFalse (fun hc => by cases hc; exact h rfl)
  | .error x, .error y =>
      if h : x = y then isTrue (by rw [h])
      else isFalse (fun hc => by cases hc; exact h rfl)
  | .ok _, .error _ => isFalse (fun hc => Except.noConfusion hc)
  | .error _, .ok _ => isFalse (fun hc => Except.noConfusion hc)

/-- Python `str.startswith`, rendered on the character lists of the two
strings. -/
def strStartsWith (s pre : String) : Bool := pre.data.isPrefixOf s.data

/-- Abstract filesystem: `entries` maps each directory path to its listing
(what `os.listdir` returns) and `files` lists the non-directory paths.
A path exists iff it is a directory or a file. -/
structure FS where
  entries : List (String × List String)
  files : List String
deriving Repr

/-- os.path.isdir. -/
def FS.isDir (fs : FS) (p : String) : Bool := (alookup fs.entries p).isSome

/-- os.path.exists. -/
def FS.pathExists (fs : FS) (p : String) : Bool :=
  fs.isDir p || fs.files.contains p

/-- os.path.join on POSIX. -/
def joinPath (a b : String) : String := a ++ "/" ++ b

/-- model_utils.py `IMPLEMENTATION_FILES`; Python dicts preserve insertion
order, so detection probes detector, tracker, interactor in this order. -/
def IMPLEMENTATION_FILES : List (String × String) :=
  [("detector", "detector.py"), ("tracker", "tracker.py"),
   ("interactor", "interactor.py")]

/-- model_utils.py `detect_model_type_from_dir`: the first type whose marker
file exists inside the directory, else `none`. -/
def detect_model_type_from_dir (fs : FS) (model_dir : String) :
    Option String :=
  (IMPLEMENTATION_FILES.find?
    (fun tf => fs.pathExists (joinPath model_dir tf.2))).map (fun tf => tf.1)

/-- os.listdir: the listing for a directory; raises NotADirectoryError (or
FileNotFoundError) for a path that is not a directory. -/
def os_listdir (fs : FS) (p : String) : Except String (List String) :=
  match alookup fs.entries p with
  | some l => .ok l
  | none => .error "NotADirectoryError"

/-- orchestrator.py `_scan_model_directories`: the empty set when the models
directory does not exist; otherwise every listdir entry that is a directory,
does not begin with an underscore or a dot, and carries a marker file.  When
`models_dir` exists but is not a directory, the unguarded `os.listdir` call
raises, rendered here as the `Except` error. -/
def scan_model_directories (fs : FS) (models_dir : String) :
    Except String (List String) :=
  if fs.pathExists models_dir = false then .ok []
  else
    (os_listdir fs models_dir).map (fun listing =>
      listing.filter (fun entry =>
        let model_path := joinPath models_dir entry
        fs.isDir model_path && !strStartsWith entry "_" &&
          !strStartsWith entry "." &&
          (detect_model_type_from_dir fs model_path).isSome))

/-- C10 (amended): a missing root scans to the empty set without error; a
root that is a directory scans to exactly its entries that are directories,
do not start with an underscore or dot, and contain a marker file; a root
that exists but is not a directory makes the scan raise instead of
returning a set. -/
theorem scan_model_directories_correct (fs : FS) (root : String) :
    (fs.pathExists root = false →
      scan_model_directories fs root = Except.ok []) ∧
    (∀ listing, alookup fs.entries root = some listing →
      ∃ r, scan_model_directories fs root = Except.ok r ∧
        ∀ e, e ∈ r ↔ e ∈ listing ∧ fs.isDir (joinPath root e) = true ∧
          strStartsWith e "_" = false ∧ strStartsWith e "." = false ∧
          (detect_model_type_from_dir fs (joinPath root e)).isSome = true) ∧
    (fs.pathExists root = true → alookup fs.entries root = none →
      scan_model_directories fs root = Except.error "NotADirectoryError") := by
  refine ⟨?_, ?_, ?_⟩
  · intro h
    simp [scan_model_directories, h]
  · intro listing hdir
    have hex : fs.pathExists root = true := by
      simp [FS.pathExists, FS.isDir, hdir]
    refine ⟨listing.filter (fun entry =>
      fs.isDir (joinPath root entry) && !strStartsWith entry "_" &&
        !strStartsWith entry "." &&
        (detect_model_type_from_dir fs (joinPath root entry)).isSome),
      ?_, ?_⟩
    · simp [scan_model_directories, hex, os_listdir, hdir, Except.map]
    · intro e
      constructor
      · intro he
        have hmf := List.mem_filter.mp he
        refine ⟨hmf.1, ?_⟩
        have hb := hmf.2
        simp only [Bool.and_eq_true, Bool.not_eq_true'] at hb
        exact ⟨hb.1.1.1, hb.1.1.2, hb.1.2, by simpa using hb.2⟩
      · intro ⟨h1, h2, h3, h4, h5⟩
        refine List.mem_filter.mpr ⟨h1, ?_⟩
        simp only [Bool.and_eq_true, Bool.not_eq_true']
        exact ⟨⟨⟨h2, h3⟩, h4⟩, by simpa using h5⟩
  · intro hex hnone
    simp [scan_model_directories, hex, os_listdir, hnone, Except.map]

/-- A filesystem whose models directory holds one valid model (`yolo`), a
reserved-prefix directory, a plain file and a directory without markers. -/
def scanDemoFS : FS :=
  { entries := [("models", ["yolo", "_hidden", "notes", "empty"]),
                ("models/yolo", ["detector.py"]), ("models/empty", [])],
    files := ["models/yolo/detector.py", "models/notes"] }

/-- Witness for C10: the scan characterisation instantiated on `scanDemoFS`,
whose scan keeps exactly the entry `yolo`. -/
theorem scan_model_directories_correct_witness :
    (∃ r, scan_model_directories scanDemoFS "models" = Except.ok r ∧
      ∀ e, e ∈ r ↔ e ∈ ["yolo", "_hidden", "notes", "empty"] ∧
        scanDemoFS.isDir (joinPath "models" e) = true ∧
        strStartsWith e "_" = false ∧ strStartsWith e "." = false ∧
        (detect_model_type_from_dir scanDemoFS
          (joinPath "models" e)).isSome = true) ∧
    scan_model_directories scanDemoFS "models" = Except.ok ["yolo"] :=
  ⟨(scan_model_directories_correct scanDemoFS "models").2.1
    ["yolo", "_hidden", "notes", "empty"] rfl, by decide⟩

/-- A filesystem in which the models path exists but is a regular file. -/
def fileRootFS : FS := { entries := [], files := ["models"] }

/-- Counterexample for C10 as stated: the models root exists (as a regular
file), yet the scan raises NotADirectoryError instead of returning the set
of valid entries (which would be empty). -/
theorem scan_model_directories_file_root_counterexample :
    fileRootFS.pathExists "models" = true ∧
    scan_model_directories fileRootFS "models" =
      Except.error "NotADirectoryError" ∧
    scan_model_directories fileRootFS "models" ≠ Except.ok [] := by
  refine ⟨rfl, by decide, by decide⟩

/-! ## model_loader.py: the wrapper's module-path construction -/

/-- model_loader.py `LazyModelWrapper` identity: the implementation
directory it was constructed on (`model_input_dir`) and the instance name. -/
structure LazyModelWrapper where
  model_dir : String
  model_name : String
deriving DecidableEq, Repr

/-- Outcome of `LazyModelWrapper.load`: the instance was constructed from
the named module, or a ModelLoadError carrying the instance name. -/
inductive LoadOutcome where
  | ok (module_name : String)
  | modelLoadError (model_name msg : String)
deriving DecidableEq, Repr

/-- model_loader.py `LazyModelWrapper.load`, with Python's import machinery
as oracles: `importable m` holds when `importlib.import_module m` succeeds
and `classOk m` holds when the imported module carries a class accepted by
`register_model_class`.  The module path is built from `self.model_name`,
not from `self.model_dir` (source:
`module_name = f"src.models.SELF_MODEL_NAME.FOUND_TYPE"`); an import
failure is wrapped into a ModelLoadError by the enclosing handler. -/
def wrapper_load (fs : FS) (importable classOk : String → Bool)
    (w : LazyModelWrapper) : LoadOutcome :=
  match detect_model_type_from_dir fs w.model_dir with
  | none => .modelLoadError w.model_name "No implementation file found"
  | some found_type =>
      let module_name := "src.models." ++ w.model_name ++ "." ++ found_type
      if importable module_name = false then
        .modelLoadError w.model_name "import failed"
      else if classOk module_name = false then
        .modelLoadError w.model_name "No valid interface implementation found"
      else .ok module_name

/-- model_runner.py `main`: the worker builds its wrapper on the directory
named by `--implementation` (defaulting to the instance name) while passing
the instance name as the wrapper's `model_name`.  The absolute project-root
prefix of `target_dir` is elided: paths are relative to the project root. -/
def runner_wrapper (model_name : String) (implementation : Option String) :
    LazyModelWrapper :=
  let impl_name :=
    match implementation with
    | some s => if s = "" then model_name else s
    | none => model_name
  { model_dir := joinPath "src/models" impl_name, model_name := model_name }

/-- C9 (amended): the wrapper's load builds the module import path from the
instance name, never from the implementation directory it was given: when
the implementation directory carries a valid marker but no module is
importable under the instance name's path (in particular when
`src/models/MODEL_NAME` is absent), load fails with a ModelLoadError, and
any successful load imported the module named after the instance. -/
theorem wrapper_load_uses_instance_name (fs : FS)
    (importable classOk : String → Bool) (name impl t : String)
    (hdet : detect_model_type_from_dir fs
      (runner_wrapper name (some impl)).model_dir = some t) :
    (importable ("src.models." ++ name ++ "." ++ t) = false →
      wrapper_load fs importable classOk (runner_wrapper name (some impl)) =
        LoadOutcome.modelLoadError name "import failed") ∧
    (∀ m, wrapper_load fs importable classOk
        (runner_wrapper name (some impl)) = LoadOutcome.ok m →
      m = "src.models." ++ name ++ "." ++ t) := by
  have hname_eq : (runner_wrapper name (some impl)).model_name = name := rfl
  constructor
  · intro himp
    unfold wrapper_load
    simp only [hdet, hname_eq]
    rw [if_pos himp]
  · intro m h
    unfold wrapper_load at h
    simp only [hdet, hname_eq] at h
    by_cases h1 : importable ("src.models." ++ name ++ "." ++ t) = false
    · rw [if_pos h1] at h
      exact LoadOutcome.noConfusion h
    · rw [if_neg h1] at h
      by_cases h2 : classOk ("src.models." ++ name ++ "." ++ t) = false
      · rw [if_pos h2] at h
        exact LoadOutcome.noConfusion h
      · rw [if_neg h2] at h
        cases h
        rfl

/-- A filesystem holding a single valid implementation folder `other`. -/
def c9FS : FS :=
  { entries := [("src/models/other", ["detector.py"])],
    files := ["src/models/other/detector.py"] }

/-- An import oracle under which no module is importable. -/
def noImports : String → Bool := fun _ => false

/-- Witness for C9: instance name `inst`, implementation folder `other`
carrying a valid marker, nothing importable under `src.models.inst` — load
fails with the ModelLoadError. -/
theorem wrapper_load_uses_instance_name_witness :
    detect_model_type_from_dir c9FS
      (runner_wrapper "inst" (some "other")).model_dir = some "detector" ∧
    noImports ("src.models." ++ "inst" ++ "." ++ "detector") = false ∧
    wrapper_load c9FS noImports (fun _ => true)
      (runner_wrapper "inst" (some "other")) =
      LoadOutcome.modelLoadError "inst" "import failed" :=
  ⟨rfl, rfl,
    (wrapper_load_uses_instance_name c9FS noImports (fun _ => true)
      "inst" "other" "detector" rfl).1 rfl⟩

/-- A filesystem with valid implementation folders `a` and `b`. -/
def c9BothFS : FS :=
  { entries := [("src/models/a", ["detector.py"]),
                ("src/models/b", ["detector.py"])],
    files := ["src/models/a/detector.py", "src/models/b/detector.py"] }

/-- Import oracle matching `c9BothFS`: exactly the module backed by the
file `src/models/b/detector.py` is importable. -/
def c9Importable : String → Bool :=
  fun m => if m = "src.models.b.detector" then true else false

/-- Counterexample for C9 as stated: worker with instance name `b` and
implementation folder `a` (names differ, the folder carries a valid
marker), but because a module happens to be importable under the instance
name's path, load succeeds — importing `src.models.b.detector` instead of
anything from the given directory — rather than raising ModelLoadError. -/
theorem wrapper_load_name_mismatch_counterexample :
    ("b" : String) ≠ "a" ∧
    detect_model_type_from_dir c9BothFS
      (runner_wrapper "b" (some "a")).model_dir = some "detector" ∧
    wrapper_load c9BothFS c9Importable (fun _ => true)
      (runner_wrapper "b" (some "a")) =
      LoadOutcome.ok "src.models.b.detector" := by
  refine ⟨by decide, rfl, rfl⟩

/-! ## orchestrator.py: process registry synchronisation -/

/-- A handle on a spawned worker process: an identifier and the result of
`Popen.poll()` (`none` while the process is alive, the exit code once it
has died). -/
structure ProcHandle where
  pid : Nat
  exit_code : Option Int
deriving DecidableEq, Repr

/-- Orchestrator state: `process_registry` (a Python dict, hence insertion
ordered) and a counter supplying fresh identifiers for `Popen`. -/
structure OrchState where
  registry : List (String × ProcHandle)
  next_pid : Nat
deriving DecidableEq, Repr

/-- Python dict assignment `d[k] = v`: replace in place, or append. -/
def setOrAdd {α : Type} (l : List (String × α)) (k : String) (v : α) :
    List (String × α) :=
  if (alookup l k).isSome then setEntry l k v else l ++ [(k, v)]

/-- orchestrator.py `start_model`: `subprocess.Popen(...)` yields a fresh
live process and `self.process_registry[name] = proc` records it. -/
def start_model (name : String) (st : OrchState) : OrchState :=
  { registry :=
      setOrAdd st.registry name { pid := st.next_pid, exit_code := none },
    next_pid := st.next_pid + 1 }

/-- One iteration of sync_processes step 5 for one runnable name: start when
absent from the registry, restart when `poll()` reports an exit code, leave
alone when alive. -/
def startRestartOne (name : String) (st : OrchState) : OrchState :=
  match alookup st.registry name with
  | none => start_model name st
  | some proc =>
      match proc.exit_code with
      | none => st
      | some _ => start_model name st

/-- sync_processes step 5: the loop `for name in valid_models`. -/
def sync_start_restart : List String → OrchState → OrchState
  | [], st => st
  | n :: rest, st => sync_start_restart rest (startRestartOne n st)

/-- Externally visible teardown actions, in program order. -/
inductive TeardownEvent where
  | terminate (name : String)
  | kill (name : String)
  | removeHandle (name : String)
  | nuctlDelete (name : String) (ok : Bool)
  | rmtreeArtifact (name : String) (ok : Bool)
deriving DecidableEq, Repr

/-- The worker name an event belongs to. -/
def TeardownEvent.evName : TeardownEvent → String
  | .terminate n => n
  | .kill n => n
  | .removeHandle n => n
  | .nuctlDelete n _ => n
  | .rmtreeArtifact n _ => n

/-- Environment oracles for teardown: whether the process exits within the
grace period after `terminate()`, whether the external `nuctl delete`
collaborator succeeds, whether the generated artifact directory exists, and
whether `shutil.rmtree` succeeds. -/
structure TeardownEnv where
  gracefulExit : String → Bool
  nuctlDeleteOk : String → Bool
  artifactDirExists : String → Bool
  rmtreeOk : String → Bool

/-- orchestrator.py `stop_model`: if the registry holds a process handle,
send `terminate()`, wait up to the 5-second grace period (`kill()` on
timeout) and delete the handle from the registry; when `permanent`,
additionally run the external `nuctl delete` collaborator and, if the
generated artifact directory exists, `shutil.rmtree` it.  Collaborator and
rmtree failures are caught and logged (events with `ok := false`); they
abort nothing. -/
def stop_model (env : TeardownEnv) (name : String) (permanent : Bool)
    (st : OrchState) : OrchState × List TeardownEvent :=
  let step1 : OrchState × List TeardownEvent :=
    match alookup st.registry name with
    | some _ =>
        ({ st with registry :=
            st.registry.filter (fun kv => if kv.1 = name then false else true) },
          [TeardownEvent.terminate name] ++
            (if env.gracefulExit name then [] else [TeardownEvent.kill name]) ++
            [TeardownEvent.removeHandle name])
    | none => (st, [])
  if permanent = false then step1
  else
    let evs2 := step1.2 ++
      [TeardownEvent.nuctlDelete name (env.nuctlDeleteOk name)]
    let evs3 :=
      if env.artifactDirExists name then
        evs2 ++ [TeardownEvent.rmtreeArtifact name (env.rmtreeOk name)]
      else evs2
    (step1.1, evs3)

/-- sync_processes step 6: `for name in running_names: if name not in
valid_models: self.stop_model(name, permanent=True)`. -/
def sync_stop_removed_aux (env : TeardownEnv) (valid : List String) :
    List String → OrchState → OrchState × List TeardownEvent
  | [], st => (st, [])
  | n :: rest, st =>
      if n ∈ valid then sync_stop_removed_aux env valid rest st
      else
        let r := stop_model env n true st
        let r2 := sync_stop_removed_aux env valid rest r.1
        (r2.1, r.2 ++ r2.2)

/-- Steps 5 and 6 of one reconciliation tick over the runnable set `valid`:
start or restart every runnable model, then permanently stop every registry
entry whose name is not runnable; `running_names` is the registry key list
as it stands after step 5, as in the source. -/
def sync_tick (env : TeardownEnv) (valid : List String) (st : OrchState) :
    OrchState × List TeardownEvent :=
  let st1 := sync_start_restart valid st
  sync_stop_removed_aux env valid (st1.registry.map Prod.fst) st1

/-- The teardown sequence of one permanently stopped worker present in the
registry: terminate, force-kill only when the grace period expires, handle
removal, the external delete collaborator (with its outcome), and artifact
directory removal (with its outcome) when the directory exists. -/
def teardownSeq (env : TeardownEnv) (name : String) : List TeardownEvent :=
  let evs2 :=
    ([TeardownEvent.terminate name] ++
      (if env.gracefulExit name then [] else [TeardownEvent.kill name]) ++
      [TeardownEvent.removeHandle name]) ++
    [TeardownEvent.nuctlDelete name (env.nuctlDeleteOk name)]
  if env.artifactDirExists name then
    evs2 ++ [TeardownEvent.rmtreeArtifact name (env.rmtreeOk name)]
  else evs2

/-- The sub-trace of events belonging to one worker. -/
def eventsFor (name : String) : List TeardownEvent → List TeardownEvent
  | [] => []
  | e :: rest =>
      if e.evName = name then e :: eventsFor name rest
      else eventsFor name rest

lemma alookup_append {α : Type} (l1 l2 : List (String × α)) (k : String) :
    alookup (l1 ++ l2) k =
      match alookup l1 k with
      | some v => some v
      | none => alookup l2 k := by
  induction l1 with
  | nil => rfl
  | cons kv rest ih =>
      by_cases h : kv.1 = k
      · simp [alookup, h]
      · simp [alookup, h, ih]

lemma alookup_setEntry_ne {α : Type} (l : List (String × α)) (k k' : String)
    (v : α) (h : k' ≠ k) : alookup (setEntry l k v) k' = alookup l k' := by
  induction l with
  | nil => rfl
  | cons kv rest ih =>
      by_cases hk : kv.1 = k
      · have : ¬(k = k') := fun hc => h hc.symm
        simp [setEntry, alookup, hk, this]
        simpa [setEntry] using ih
      · simp only [setEntry, List.map_cons, if_neg hk, alookup]
        by_cases hk' : kv.1 = k'
        · simp [hk']
        · simp only [if_neg hk']
          simpa [setEntry] using ih

lemma alookup_setOrAdd_self {α : Type} (l : List (String × α)) (k : String)
    (v : α) : alookup (setOrAdd l k v) k = some v := by
  unfold setOrAdd
  rcases h : alookup l k with _ | w
  · simp only [h, Option.isSome_none, Bool.false_eq_true, if_false]
    rw [alookup_append, h]
    simp [alookup]
  · simp only [h, Option.isSome_some, if_true]
    rw [alookup_setEntry, h]
    rfl

lemma alookup_setOrAdd_ne {α : Type} (l : List (String × α)) (k k' : String)
    (v : α) (h : k' ≠ k) : alookup (setOrAdd l k v) k' = alookup l k' := by
  unfold setOrAdd
  rcases hl : (alookup l k).isSome with _ | _
  · simp only [hl, Bool.false_eq_true, if_false]
    rw [alookup_append]
    have hkk : ¬(k = k') := fun hc => h hc.symm
    rcases h2 : alookup l k' with _ | w
    · simp [alookup, hkk]
    · simp
  · simp only [hl, if_true]
    exact alookup_setEntry_ne l k k' v h

lemma alookup_filter_self {α : Type} (l : List (String × α)) (k : String) :
    alookup (l.filter (fun kv => if kv.1 = k then false else true)) k =
      none := by
  induction l with
  | nil => rfl
  | cons kv rest ih =>
      by_cases h : kv.1 = k
      · simpa [List.filter, h] using ih
      · simpa [List.filter, h, alookup] using ih

lemma alookup_filter_ne {α : Type} (l : List (String × α)) (k k' : String)
    (h : k' ≠ k) :
    alookup (l.filter (fun kv => if kv.1 = k then false else true)) k' =
      alookup l k' := by
  induction l with
  | nil => rfl
  | cons kv rest ih =>
      have hkk : ¬(k = k') := fun hc => h hc.symm
      by_cases hk : kv.1 = k
      · simp [List.filter_cons, hk, alookup, hkk, h] at ih ⊢
        exact ih
      · by_cases hk' : kv.1 = k'
        · simp [List.filter_cons, hk, alookup, hk', h, ih]
        · simp [List.filter_cons, hk, alookup, hk', h] at ih ⊢
          exact ih

lemma alookup_none_of_filter {α : Type} (l : List (String × α)) (k : String)
    (p : String × α → Bool) (h : alookup l k = none) :
    alookup (l.filter p) k = none := by
  induction l with
  | nil => rfl
  | cons kv rest ih =>
      by_cases hk : kv.1 = k
      · simp [alookup, hk] at h
      · simp only [alookup, if_neg hk] at h
        rcases hp : p kv with _ | _
        · simpa [List.filter, hp] using ih h
        · simpa [List.filter, hp, alookup, hk] using ih h

/-- The registry maps `name` to a live process whose identifier is at least
`k` (used to witness that the process was freshly spawned). -/
def aliveFresh (k : Nat) (st : OrchState) (name : String) : Prop :=
  ∃ p, alookup st.registry name = some p ∧ p.exit_code = none ∧ k ≤ p.pid

lemma aliveFresh_mono {j k : Nat} {st : OrchState} {name : String}
    (h : j ≤ k) : aliveFresh k st name → aliveFresh j st name := by
  rintro ⟨p, h1, h2, h3⟩
  exact ⟨p, h1, h2, le_trans h h3⟩

lemma start_model_lookup_self (name : String) (st : OrchState) :
    alookup (start_model name st).registry name =
      some { pid := st.next_pid, exit_code := none } := by
  simp [start_model, alookup_setOrAdd_self]

lemma startRestartOne_lookup_other (n name : String) (st : OrchState)
    (h : n ≠ name) :
    alookup (startRestartOne n st).registry name =
      alookup st.registry name := by
  have hne : name ≠ n := fun hc => h hc.symm
  unfold startRestartOne
  rcases h2 : alookup st.registry n with _ | proc
  · simp only [h2]
    simp [start_model, alookup_setOrAdd_ne _ _ _ _ hne]
  · simp only [h2]
    rcases h3 : proc.exit_code with _ | c
    · simp only [h3]
    · simp only [h3]
      simp [start_model, alookup_setOrAdd_ne _ _ _ _ hne]

lemma startRestartOne_next_pid_mono (n : String) (st : OrchState) :
    st.next_pid ≤ (startRestartOne n st).next_pid := by
  unfold startRestartOne
  rcases h2 : alookup st.registry n with _ | proc
  · simp only [h2]
    simp [start_model]
  · simp only [h2]
    rcases h3 : proc.exit_code with _ | c
    · simp only [h3]
      exact le_refl _
    · simp only [h3]
      simp [start_model]

lemma sync_start_restart_preserves_alive (name : String) (k : Nat) :
    ∀ l st, aliveFresh k st name →
      aliveFresh k (sync_start_restart l st) name := by
  intro l
  induction l with
  | nil => intro st h; exact h
  | cons n rest ih =>
      intro st h
      simp only [sync_start_restart]
      apply ih
      by_cases hn : n = name
      · subst hn
        obtain ⟨p, h1, h2, h3⟩ := h
        unfold startRestartOne
        simp only [h1, h2]
        exact ⟨p, h1, h2, h3⟩
      · obtain ⟨p, h1, h2, h3⟩ := h
        refine ⟨p, ?_, h2, h3⟩
        rw [startRestartOne_lookup_other n name st hn]
        exact h1

lemma sync_start_restart_next_pid_mono :
    ∀ l st, st.next_pid ≤ (sync_start_restart l st).next_pid := by
  intro l
  induction l with
  | nil => intro st; exact le_refl _
  | cons n rest ih =>
      intro st
      simp only [sync_start_restart]
      exact le_trans (startRestartOne_next_pid_mono n st) (ih _)

lemma sync_start_restart_lookup_notmem (name : String) :
    ∀ l st, name ∉ l →
      alookup (sync_start_restart l st).registry name =
        alookup st.registry name := by
  intro l
  induction l with
  | nil => intro st _; rfl
  | cons n rest ih =>
      intro st hmem
      have hn : n ≠ name := fun hc => hmem (by rw [hc]; exact List.mem_cons_self name rest)
      have hmem' : name ∉ rest := fun hc => hmem (List.mem_cons_of_mem n hc)
      simp only [sync_start_restart]
      rw [ih _ hmem']
      exact startRestartOne_lookup_other n name st hn

lemma sync_start_restart_restarts (name : String) :
    ∀ l st proc, name ∈ l →
      alookup st.registry name = some proc → proc.exit_code ≠ none →
      aliveFresh st.next_pid (sync_start_restart l st) name := by
  intro l
  induction l with
  | nil => intro st proc hmem _ _; exact absurd hmem (List.not_mem_nil _)
  | cons n rest ih =>
      intro st proc hmem hlook hdead
      simp only [sync_start_restart]
      by_cases hn : n = name
      · subst hn
        rcases h3 : proc.exit_code with _ | c
        · exact absurd h3 hdead
        have hstep : startRestartOne n st = start_model n st := by
          unfold startRestartOne
          simp only [hlook, h3]
        rw [hstep]
        apply sync_start_restart_preserves_alive
        exact ⟨{ pid := st.next_pid, exit_code := none },
          start_model_lookup_self n st, rfl, le_refl _⟩
      · have hmem' : name ∈ rest := by
          rcases List.mem_cons.mp hmem with h | h
          · exact absurd h.symm hn
          · exact h
        have hlook' : alookup (startRestartOne n st).registry name =
            some proc := by
          rw [startRestartOne_lookup_other n name st hn]
          exact hlook
        exact aliveFresh_mono (startRestartOne_next_pid_mono n st)
          (ih (startRestartOne n st) proc hmem' hlook' hdead)

lemma stop_model_registry (env : TeardownEnv) (name : String)
    (perm : Bool) (st : OrchState) :
    (stop_model env name perm st).1.registry =
      match alookup st.registry name with
      | some _ =>
          st.registry.filter (fun kv => if kv.1 = name then false else true)
      | none => st.registry := by
  unfold stop_model
  rcases h2 : alookup st.registry name with _ | proc <;>
    by_cases hp : perm = false <;> simp [h2, hp]

lemma stop_model_lookup_other (env : TeardownEnv) (n name : String)
    (perm : Bool) (st : OrchState) (h : n ≠ name) :
    alookup (stop_model env n perm st).1.registry name =
      alookup st.registry name := by
  have hne : name ≠ n := fun hc => h hc.symm
  rw [stop_model_registry]
  rcases h2 : alookup st.registry n with _ | proc
  · rfl
  · exact alookup_filter_ne _ _ _ hne

lemma stop_phase_lookup_valid (env : TeardownEnv) (valid : List String)
    (name : String) (hv : name ∈ valid) :
    ∀ l st,
      alookup (sync_stop_removed_aux env valid l st).1.registry name =
        alookup st.registry name := by
  intro l
  induction l with
  | nil => intro st; rfl
  | cons n rest ih =>
      intro st
      simp only [sync_stop_removed_aux]
      by_cases hn : n ∈ valid
      · rw [if_pos hn]
        exact ih st
      · rw [if_neg hn]
        have hnname : n ≠ name := fun hc => hn (hc ▸ hv)
        show alookup (sync_stop_removed_aux env valid rest
            (stop_model env n true st).1).1.registry name =
          alookup st.registry name
        rw [ih _]
        exact stop_model_lookup_other env n name true st hnname

/-- C5: for every runnable declaration whose registry process handle
reports an exit code (`poll()` not `None`), one reconciliation tick
(start/restart then stop phases) leaves the registry holding a freshly
spawned live process for that name: a crashed worker is restarted within
at most one poll interval. -/
theorem sync_tick_restarts_crashed (env : TeardownEnv)
    (valid : List String) (st : OrchState) (name : String)
    (proc : ProcHandle)
    (hmem : name ∈ valid)
    (hlook : alookup st.registry name = some proc)
    (hdead : proc.exit_code ≠ none) :
    ∃ p, alookup (sync_tick env valid st).1.registry name = some p ∧
      p.exit_code = none ∧ st.next_pid ≤ p.pid := by
  obtain ⟨p, hp1, hp2, hp3⟩ :=
    sync_start_restart_restarts name valid st proc hmem hlook hdead
  refine ⟨p, ?_, hp2, hp3⟩
  have hrw : sync_tick env valid st =
      sync_stop_removed_aux env valid
        ((sync_start_restart valid st).registry.map Prod.fst)
        (sync_start_restart valid st) := rfl
  rw [hrw, stop_phase_lookup_valid env valid name hmem]
  exact hp1

/-- A registry holding one crashed worker `w` (exit code 1). -/
def crashedSt : OrchState :=
  { registry := [("w", { pid := 0, exit_code := some 1 })], next_pid := 1 }

/-- A teardown environment in which everything succeeds. -/
def demoEnv : TeardownEnv :=
  { gracefulExit := fun _ => true, nuctlDeleteOk := fun _ => true,
    artifactDirExists := fun _ => false, rmtreeOk := fun _ => true }

/-- Witness for C5: the crashed worker `w` is restarted by the tick. -/
theorem sync_tick_restarts_crashed_witness :
    ∃ p, alookup (sync_tick demoEnv ["w"] crashedSt).1.registry "w" =
        some p ∧ p.exit_code = none ∧ crashedSt.next_pid ≤ p.pid :=
  sync_tick_restarts_crashed demoEnv ["w"] crashedSt "w"
    { pid := 0, exit_code := some 1 }
    (List.mem_cons_self "w" []) rfl (by simp)

lemma teardownSeq_names (env : TeardownEnv) (n : String) :
    ∀ e ∈ teardownSeq env n, e.evName = n := by
  by_cases hg : env.gracefulExit n <;>
    by_cases hd : env.artifactDirExists n <;>
      simp [teardownSeq, hg, hd, TeardownEvent.evName]

lemma stop_model_events_names (env : TeardownEnv) (n : String)
    (perm : Bool) (st : OrchState) :
    ∀ e ∈ (stop_model env n perm st).2, e.evName = n := by
  unfold stop_model
  rcases h2 : alookup st.registry n with _ | proc <;>
    by_cases hp : perm = false <;>
      by_cases hg : env.gracefulExit n <;>
        by_cases hd : env.artifactDirExists n <;>
          simp [h2, hp, hg, hd, TeardownEvent.evName]

lemma eventsFor_all (name : String) :
    ∀ evs : List TeardownEvent, (∀ e ∈ evs, e.evName = name) →
      eventsFor name evs = evs := by
  intro evs
  induction evs with
  | nil => intro _; rfl
  | cons e rest ih =>
      intro h
      have he : e.evName = name := h e (List.mem_cons_self e rest)
      have hrest := ih (fun x hx => h x (List.mem_cons_of_mem e hx))
      simp [eventsFor, he, hrest]

lemma eventsFor_none (name : String) :
    ∀ evs : List TeardownEvent, (∀ e ∈ evs, e.evName ≠ name) →
      eventsFor name evs = [] := by
  intro evs
  induction evs with
  | nil => intro _; rfl
  | cons e rest ih =>
      intro h
      have he : e.evName ≠ name := h e (List.mem_cons_self e rest)
      have hrest := ih (fun x hx => h x (List.mem_cons_of_mem e hx))
      simp [eventsFor, he, hrest]

lemma eventsFor_append (name : String) (l1 l2 : List TeardownEvent) :
    eventsFor name (l1 ++ l2) = eventsFor name l1 ++ eventsFor name l2 := by
  induction l1 with
  | nil => rfl
  | cons e rest ih =>
      by_cases he : e.evName = name <;> simp [eventsFor, he, ih]

lemma stop_model_found (env : TeardownEnv) (name : String) (st : OrchState)
    (proc : ProcHandle) (h : alookup st.registry name = some proc) :
    stop_model env name true st =
      ({ st with
          registry :=
            st.registry.filter
              (fun kv => if kv.1 = name then false else true) },
        teardownSeq env name) := by
  unfold stop_model
  simp only [h]
  rfl

lemma stop_model_lookup_none (env : TeardownEnv) (n name : String)
    (perm : Bool) (st : OrchState)
    (h : alookup st.registry name = none) :
    alookup (stop_model env n perm st).1.registry name = none := by
  rw [stop_model_registry]
  rcases h2 : alookup st.registry n with _ | proc
  · exact h
  · exact alookup_none_of_filter _ _ _ h

lemma stop_phase_registry_none (env : TeardownEnv) (valid : List String)
    (name : String) :
    ∀ l st, alookup st.registry name = none →
      alookup (sync_stop_removed_aux env valid l st).1.registry name =
        none := by
  intro l
  induction l with
  | nil => intro st h; exact h
  | cons n rest ih =>
      intro st h
      simp only [sync_stop_removed_aux]
      by_cases hn : n ∈ valid
      · rw [if_pos hn]
        exact ih st h
      · rw [if_neg hn]
        show alookup (sync_stop_removed_aux env valid rest
            (stop_model env n true st).1).1.registry name = none
        exact ih _ (stop_model_lookup_none env n name true st h)

lemma stop_phase_events_notmem (env : TeardownEnv) (valid : List String)
    (name : String) :
    ∀ l st, name ∉ l →
      eventsFor name (sync_stop_removed_aux env valid l st).2 = [] := by
  intro l
  induction l with
  | nil => intro st _; rfl
  | cons n rest ih =>
      intro st hmem
      have hn_ne : n ≠ name := fun hc =>
        hmem (by rw [hc]; exact List.mem_cons_self name rest)
      have hmem' : name ∉ rest := fun hc =>
        hmem (List.mem_cons_of_mem n hc)
      simp only [sync_stop_removed_aux]
      by_cases hn : n ∈ valid
      · rw [if_pos hn]
        exact ih _ hmem'
      · rw [if_neg hn]
        show eventsFor name ((stop_model env n true st).2 ++
            (sync_stop_removed_aux env valid rest
              (stop_model env n true st).1).2) = []
        rw [eventsFor_append,
          eventsFor_none name _ (fun e he => by
            rw [stop_model_events_names env n true st e he]
            exact hn_ne),
          ih _ hmem']
        rfl

lemma stop_phase_teardown (env : TeardownEnv) (valid : List String)
    (name : String) (proc : ProcHandle) :
    ∀ l st, name ∈ l → l.Nodup → name ∉ valid →
      alookup st.registry name = some proc →
      alookup (sync_stop_removed_aux env valid l st).1.registry name =
          none ∧
        eventsFor name (sync_stop_removed_aux env valid l st).2 =
          teardownSeq env name := by
  intro l
  induction l with
  | nil => intro st h _ _ _; exact absurd h (List.not_mem_nil _)
  | cons n rest ih =>
      intro st hmem hnd hnv hlook
      simp only [sync_stop_removed_aux]
      by_cases hn : n = name
      · subst hn
        rw [if_neg hnv]
        show alookup (sync_stop_removed_aux env valid rest
              (stop_model env n true st).1).1.registry n = none ∧
          eventsFor n ((stop_model env n true st).2 ++
            (sync_stop_removed_aux env valid rest
              (stop_model env n true st).1).2) = teardownSeq env n
        rw [stop_model_found env n st proc hlook]
        have hnone : alookup (st.registry.filter
            (fun kv => if kv.1 = n then false else true)) n = none :=
          alookup_filter_self _ _
        have hrest_nm : n ∉ rest := (List.nodup_cons.mp hnd).1
        constructor
        · exact stop_phase_registry_none env valid n rest _ hnone
        · rw [eventsFor_append,
            eventsFor_all n _ (teardownSeq_names env n),
            stop_phase_events_notmem env valid n rest _ hrest_nm]
          simp
      · have hmem' : name ∈ rest := by
          rcases List.mem_cons.mp hmem with h | h
          · exact absurd h.symm hn
          · exact h
        have hnd' : rest.Nodup := (List.nodup_cons.mp hnd).2
        by_cases hv : n ∈ valid
        · rw [if_pos hv]
          exact ih st hmem' hnd' hnv hlook
        · rw [if_neg hv]
          have hlook' : alookup (stop_model env n true st).1.registry name =
              some proc := by
            rw [stop_model_lookup_other env n name true st hn]
            exact hlook
          have hres := ih _ hmem' hnd' hnv hlook'
          constructor
          · exact hres.1
          · show eventsFor name ((stop_model env n true st).2 ++
                (sync_stop_removed_aux env valid rest
                  (stop_model env n true st).1).2) = teardownSeq env name
            rw [eventsFor_append,
              eventsFor_none name _ (fun e he => by
                rw [stop_model_events_names env n true st e he]
                exact hn),
              hres.2]
            rfl

lemma keys_setEntry {α : Type} (l : List (String × α)) (k : String)
    (v : α) : (setEntry l k v).map Prod.fst = l.map Prod.fst := by
  induction l with
  | nil => rfl
  | cons kv rest ih =>
      by_cases hk : kv.1 = k
      · simp [setEntry, hk, ih]
        intro a b _
        by_cases h : a = k <;> simp [h]
      · simp [setEntry, hk, ih]
        intro a b _
        by_cases h : a = k <;> simp [h]

lemma alookup_isSome_of_mem_keys {α : Type} (l : List (String × α))
    (k : String) (h : k ∈ l.map Prod.fst) : (alookup l k).isSome = true := by
  induction l with
  | nil => simp at h
  | cons kv rest ih =>
      by_cases hk : kv.1 = k
      · simp [alookup, hk]
      · simp only [List.map_cons, List.mem_cons] at h
        rcases h with h | h
        · exact absurd h.symm hk
        · simp only [alookup, if_neg hk]
          exact ih h

lemma mem_keys_of_alookup {α : Type} (l : List (String × α)) (k : String)
    (v : α) (h : alookup l k = some v) : k ∈ l.map Prod.fst := by
  induction l with
  | nil => simp [alookup] at h
  | cons kv rest ih =>
      by_cases hk : kv.1 = k
      · simp [hk]
      · simp only [alookup, if_neg hk] at h
        simp only [List.map_cons, List.mem_cons]
        exact Or.inr (ih h)

lemma keys_nodup_setOrAdd {α : Type} (l : List (String × α)) (k : String)
    (v : α) (h : (l.map Prod.fst).Nodup) :
    ((setOrAdd l k v).map Prod.fst).Nodup := by
  unfold setOrAdd
  rcases hl : (alookup l k).isSome with _ | _
  · simp only [hl, Bool.false_eq_true, if_false]
    rw [List.map_append]
    have hk : k ∉ l.map Prod.fst := fun hc => by
      rw [alookup_isSome_of_mem_keys l k hc] at hl
      exact Bool.noConfusion hl
    simp [List.nodup_append, h, hk]
  · simp only [hl, if_true]
    rw [keys_setEntry]
    exact h

lemma keys_nodup_startRestartOne (n : String) (st : OrchState)
    (h : (st.registry.map Prod.fst).Nodup) :
    ((startRestartOne n st).registry.map Prod.fst).Nodup := by
  unfold startRestartOne
  rcases h2 : alookup st.registry n with _ | proc
  · simp only [h2]
    exact keys_nodup_setOrAdd _ _ _ h
  · simp only [h2]
    rcases h3 : proc.exit_code with _ | c
    · simp only [h3]
      exact h
    · simp only [h3]
      exact keys_nodup_setOrAdd _ _ _ h

lemma keys_nodup_sync_start_restart :
    ∀ l st, ((st : OrchState).registry.map Prod.fst).Nodup →
      ((sync_start_restart l st).registry.map Prod.fst).Nodup := by
  intro l
  induction l with
  | nil => intro st h; exact h
  | cons n rest ih =>
      intro st h
      simp only [sync_start_restart]
      exact ih _ (keys_nodup_startRestartOne n st h)

/-- C6: for every process handle whose name is no longer in the runnable
set, one reconciliation tick removes the handle from the registry and its
per-name event trace is exactly: terminate (with force-kill only when the
grace period expires), handle removal, the external delete collaborator,
then artifact directory removal when the directory exists — in this order
and for every outcome of the delete collaborator and of the directory
removal, so their failures never block removal of the handle. -/
theorem sync_tick_stop_removed (env : TeardownEnv) (valid : List String)
    (st : OrchState) (name : String) (proc : ProcHandle)
    (hnd : (st.registry.map Prod.fst).Nodup)
    (hlook : alookup st.registry name = some proc)
    (hnv : name ∉ valid) :
    alookup (sync_tick env valid st).1.registry name = none ∧
    eventsFor name (sync_tick env valid st).2 = teardownSeq env name := by
  have hlook1 : alookup (sync_start_restart valid st).registry name =
      some proc := by
    rw [sync_start_restart_lookup_notmem name valid st hnv]
    exact hlook
  have hnd1 : ((sync_start_restart valid st).registry.map Prod.fst).Nodup :=
    keys_nodup_sync_start_restart valid st hnd
  have hmem1 : name ∈ (sync_start_restart valid st).registry.map Prod.fst :=
    mem_keys_of_alookup _ _ _ hlook1
  have hrw : sync_tick env valid st =
      sync_stop_removed_aux env valid
        ((sync_start_restart valid st).registry.map Prod.fst)
        (sync_start_restart valid st) := rfl
  rw [hrw]
  exact stop_phase_teardown env valid name proc _ _ hmem1 hnd1 hnv hlook1

/-- A teardown environment exercising every failure path: the grace period
expires, the delete collaborator fails, the artifact directory exists and
its removal fails. -/
def failEnv : TeardownEnv :=
  { gracefulExit := fun _ => false, nuctlDeleteOk := fun _ => false,
    artifactDirExists := fun _ => true, rmtreeOk := fun _ => false }

/-- A registry holding one live worker `old` that is no longer runnable. -/
def removedSt : OrchState :=
  { registry := [("old", { pid := 7, exit_code := none })], next_pid := 8 }

/-- Witness for C6: the no-longer-runnable worker `old` is torn down by the
tick even though the collaborator and the directory removal fail. -/
theorem sync_tick_stop_removed_witness :
    alookup (sync_tick failEnv [] removedSt).1.registry "old" = none ∧
    eventsFor "old" (sync_tick failEnv [] removedSt).2 =
      teardownSeq failEnv "old" :=
  sync_tick_stop_removed failEnv [] removedSt "old"
    { pid := 7, exit_code := none } (by decide) rfl (by decide)

/-! ## model_loader.py: the lock-protected lazy load protocol -/

/-- Program counter of one caller running `load` (or `infer`) against the
wrapper: `start` before any action; `locked` right after entering
`with self.lock`; `building` between the `self.instance is not None` check
finding `None` and the assignment of the constructed instance; `releasing`
with the body finished and the lock still held; `done` after the lock is
released (or after `infer`'s fast path skipped `load`). -/
inductive ThreadPC where
  | start
  | locked
  | building
  | releasing
  | done
deriving DecidableEq, Repr

/-- Global state of one wrapper under `n` concurrent callers: each
caller's program counter, the holder of `self.lock`, whether
`self.instance` is non-None (the Loaded state), and how many times the
model constructor has run. -/
structure LoadSys (n : Nat) where
  pc : Fin n → ThreadPC
  lock : Option (Fin n)
  loaded : Bool
  constructions : Nat

/-- Interleaving semantics of `LazyModelWrapper.load` and of `infer`'s
unsynchronised fast path.  `acquire` enters `with self.lock:` (blocked
while any other caller holds the lock); `checkLoaded` is
`if self.instance is not None: return` taking the early return;
`checkUnloaded` is the same check finding `None`; `build` runs the
constructor, assigns `self.instance` and increments the construction
count; `release` leaves the `with` block; `skipLoad` is `infer` observing
a non-None `self.instance` without the lock and not calling `load`. -/
inductive LoadStep {n : Nat} : LoadSys n → LoadSys n → Prop where
  | acquire (t : Fin n) (s : LoadSys n) :
      s.pc t = .start → s.lock = none →
      LoadStep s { s with
        pc := Function.update s.pc t .locked,
        lock := some t }
  | checkLoaded (t : Fin n) (s : LoadSys n) :
      s.pc t = .locked → s.lock = some t → s.loaded = true →
      LoadStep s { s with pc := Function.update s.pc t .releasing }
  | checkUnloaded (t : Fin n) (s : LoadSys n) :
      s.pc t = .locked → s.lock = some t → s.loaded = false →
      LoadStep s { s with pc := Function.update s.pc t .building }
  | build (t : Fin n) (s : LoadSys n) :
      s.pc t = .building → s.lock = some t →
      LoadStep s { s with
        pc := Function.update s.pc t .releasing,
        loaded := true,
        constructions := s.constructions + 1 }
  | release (t : Fin n) (s : LoadSys n) :
      s.pc t = .releasing → s.lock = some t →
      LoadStep s { s with
        pc := Function.update s.pc t .done,
        lock := none }
  | skipLoad (t : Fin n) (s : LoadSys n) :
      s.pc t = .start → s.loaded = true →
      LoadStep s { s with pc := Function.update s.pc t .done }

/-- Every caller at `start`, lock free, no constructions yet, instance
state `b` (Loaded when true). -/
def initSys (n : Nat) (b : Bool) : LoadSys n :=
  { pc := fun _ => .start, lock := none, loaded := b, constructions := 0 }

/-- States reachable from the initial state by interleaved steps. -/
def ReachLoad (n : Nat) (b : Bool) (s : LoadSys n) : Prop :=
  Relation.ReflTransGen LoadStep (initSys n b) s

/-- The inductive invariant of the load protocol: mutual exclusion via the
lock, a builder only runs while Unloaded, finished critical sections imply
Loaded, the instance never disappears, and the construction count tracks
the loaded flag. -/
structure LoadInv (n : Nat) (b : Bool) (s : LoadSys n) : Prop where
  lock_excl : ∀ t : Fin n,
    (s.pc t = ThreadPC.locked ∨ s.pc t = ThreadPC.building ∨
      s.pc t = ThreadPC.releasing) → s.lock = some t
  building_unloaded : ∀ t : Fin n,
    s.pc t = ThreadPC.building → s.loaded = false
  done_loaded : ∀ t : Fin n,
    (s.pc t = ThreadPC.releasing ∨ s.pc t = ThreadPC.done) →
    s.loaded = true
  init_loaded : b = true → s.loaded = true
  count_unloaded : s.loaded = false → s.constructions = 0
  count_loaded : b = false → s.loaded = true → s.constructions = 1
  count_init : b = true → s.constructions = 0

lemma loadInv_init (n : Nat) (b : Bool) : LoadInv n b (initSys n b) := by
  refine ⟨?_, ?_, ?_, ?_, ?_, ?_, ?_⟩
  · intro t ht
    rcases ht with h | h | h <;> exact ThreadPC.noConfusion h
  · intro t ht
    exact ThreadPC.noConfusion ht
  · intro t ht
    rcases ht with h | h <;> exact ThreadPC.noConfusion h
  · intro hb
    exact hb
  · intro _
    rfl
  · intro hb hl
    rw [hb] at hl
    exact Bool.noConfusion hl
  · intro _
    rfl

lemma loadInv_step {n : Nat} {b : Bool} {s s' : LoadSys n}
    (inv : LoadInv n b s) (hstep : LoadStep s s') : LoadInv n b s' := by
  cases hstep with
  | acquire t s hpc hlock =>
      refine ⟨?_, ?_, ?_, inv.init_loaded, inv.count_unloaded,
        inv.count_loaded, inv.count_init⟩
      · intro t' ht'
        by_cases h : t' = t
        · subst h
          rfl
        · simp only [Function.update_noteq h] at ht'
          have hx := inv.lock_excl t' ht'
          rw [hlock] at hx
          exact Option.noConfusion hx
      · intro t' ht'
        by_cases h : t' = t
        · subst h
          simp only [Function.update_same] at ht'
          exact ThreadPC.noConfusion ht'
        · simp only [Function.update_noteq h] at ht'
          exact inv.building_unloaded t' ht'
      · intro t' ht'
        by_cases h : t' = t
        · subst h
          simp only [Function.update_same] at ht'
          rcases ht' with h1 | h1 <;> exact ThreadPC.noConfusion h1
        · simp only [Function.update_noteq h] at ht'
          exact inv.done_loaded t' ht'
  | checkLoaded t s hpc hlock hloaded =>
      refine ⟨?_, ?_, ?_, inv.init_loaded, inv.count_unloaded,
        inv.count_loaded, inv.count_init⟩
      · intro t' ht'
        by_cases h : t' = t
        · subst h
          exact hlock
        · simp only [Function.update_noteq h] at ht'
          exact inv.lock_excl t' ht'
      · intro t' ht'
        by_cases h : t' = t
        · subst h
          simp only [Function.update_same] at ht'
          exact ThreadPC.noConfusion ht'
        · simp only [Function.update_noteq h] at ht'
          exact inv.building_unloaded t' ht'
      · intro t' ht'
        by_cases h : t' = t
        · subst h
          exact hloaded
        · simp only [Function.update_noteq h] at ht'
          exact inv.done_loaded t' ht'
  | checkUnloaded t s hpc hlock hunloaded =>
      refine ⟨?_, ?_, ?_, inv.init_loaded, inv.count_unloaded,
        inv.count_loaded, inv.count_init⟩
      · intro t' ht'
        by_cases h : t' = t
        · subst h
          exact hlock
        · simp only [Function.update_noteq h] at ht'
          exact inv.lock_excl t' ht'
      · intro t' ht'
        by_cases h : t' = t
        · subst h
          exact hunloaded
        · simp only [Function.update_noteq h] at ht'
          exact inv.building_unloaded t' ht'
      · intro t' ht'
        by_cases h : t' = t
        · subst h
          simp only [Function.update_same] at ht'
          rcases ht' with h1 | h1 <;> exact ThreadPC.noConfusion h1
        · simp only [Function.update_noteq h] at ht'
          exact inv.done_loaded t' ht'
  | build t s hpc hlock =>
      have hunl : s.loaded = false := inv.building_unloaded t hpc
      have hb : b = false := by
        rcases hbv : b with _ | _
        · rfl
        · have hx := inv.init_loaded hbv
          rw [hunl] at hx
          exact Bool.noConfusion hx
      have hc0 : s.constructions = 0 := inv.count_unloaded hunl
      refine ⟨?_, ?_, ?_, ?_, ?_, ?_, ?_⟩
      · intro t' ht'
        by_cases h : t' = t
        · subst h
          exact hlock
        · simp only [Function.update_noteq h] at ht'
          exact inv.lock_excl t' ht'
      · intro t' ht'
        by_cases h : t' = t
        · subst h
          simp only [Function.update_same] at ht'
          exact ThreadPC.noConfusion ht'
        · simp only [Function.update_noteq h] at ht'
          have hx := inv.lock_excl t' (Or.inr (Or.inl ht'))
          rw [hlock] at hx
          injection hx with hx2
          exact absurd hx2.symm h
      · intro t' _
        rfl
      · intro _
        rfl
      · intro hcon
        exact Bool.noConfusion hcon
      · intro _ _
        rw [hc0]
      · intro hcon
        rw [hb] at hcon
        exact Bool.noConfusion hcon
  | release t s hpc hlock =>
      refine ⟨?_, ?_, ?_, inv.init_loaded, inv.count_unloaded,
        inv.count_loaded, inv.count_init⟩
      · intro t' ht'
        by_cases h : t' = t
        · subst h
          simp only [Function.update_same] at ht'
          rcases ht' with h1 | h1 | h1 <;> exact ThreadPC.noConfusion h1
        · simp only [Function.update_noteq h] at ht'
          have hx := inv.lock_excl t' ht'
          rw [hlock] at hx
          injection hx with hx2
          exact absurd hx2.symm h
      · intro t' ht'
        by_cases h : t' = t
        · subst h
          simp only [Function.update_same] at ht'
          exact ThreadPC.noConfusion ht'
        · simp only [Function.update_noteq h] at ht'
          exact inv.building_unloaded t' ht'
      · intro t' ht'
        by_cases h : t' = t
        · subst h
          exact inv.done_loaded _ (Or.inl hpc)
        · simp only [Function.update_noteq h] at ht'
          exact inv.done_loaded t' ht'
  | skipLoad t s hpc hloaded =>
      refine ⟨?_, ?_, ?_, inv.init_loaded, inv.count_unloaded,
        inv.count_loaded, inv.count_init⟩
      · intro t' ht'
        by_cases h : t' = t
        · subst h
          simp only [Function.update_same] at ht'
          rcases ht' with h1 | h1 | h1 <;> exact ThreadPC.noConfusion h1
        · simp only [Function.update_noteq h] at ht'
          exact inv.lock_excl t' ht'
      · intro t' ht'
        by_cases h : t' = t
        · subst h
          simp only [Function.update_same] at ht'
          exact ThreadPC.noConfusion ht'
        · simp only [Function.update_noteq h] at ht'
          exact inv.building_unloaded t' ht'
      · intro t' ht'
        by_cases h : t' = t
        · subst h
          exact hloaded
        · simp only [Function.update_noteq h] at ht'
          exact inv.done_loaded t' ht'

lemma reach_loadInv {n : Nat} {b : Bool} {s : LoadSys n}
    (h : ReachLoad n b s) : LoadInv n b s := by
  unfold ReachLoad at h
  induction h with
  | refl => exact loadInv_init n b
  | tail _ hstep ih => exact loadInv_step ih hstep

/-- C3: under every interleaving of concurrent `infer`/`load` callers, the
underlying constructor runs at most once; when the wrapper starts Loaded
it never runs at all (repeated loads return without constructing — load is
idempotent); and when the wrapper starts Unloaded and every caller has
finished, it ran exactly once. -/
theorem lazy_load_at_most_once (n : Nat) (b : Bool) (s : LoadSys n)
    (h : ReachLoad n b s) :
    s.constructions ≤ 1 ∧
    (b = true → s.constructions = 0) ∧
    (b = false → 0 < n → (∀ t, s.pc t = ThreadPC.done) →
      s.constructions = 1) := by
  have inv := reach_loadInv h
  refine ⟨?_, inv.count_init, ?_⟩
  · rcases hl : s.loaded with _ | _
    · rw [inv.count_unloaded hl]
      omega
    · rcases hbv : b with _ | _
      · rw [inv.count_loaded hbv hl]
      · rw [inv.count_init hbv]
        omega
  · intro hb hn hdone
    have hl : s.loaded = true :=
      inv.done_loaded ⟨0, hn⟩ (Or.inr (hdone ⟨0, hn⟩))
    exact inv.count_loaded hb hl

/-- The four-step trace of a single caller loading an Unloaded wrapper:
acquire, check (finding None), build, release. -/
def loadW0 : LoadSys 1 := initSys 1 false

/-- State after the caller acquires the lock. -/
def loadW1 : LoadSys 1 :=
  { loadW0 with
    pc := Function.update loadW0.pc 0 ThreadPC.locked,
    lock := some 0 }

/-- State after the caller finds the instance missing. -/
def loadW2 : LoadSys 1 :=
  { loadW1 with pc := Function.update loadW1.pc 0 ThreadPC.building }

/-- State after the caller runs the constructor. -/
def loadW3 : LoadSys 1 :=
  { loadW2 with
    pc := Function.update loadW2.pc 0 ThreadPC.releasing,
    loaded := true,
    constructions := loadW2.constructions + 1 }

/-- State after the caller releases the lock. -/
def loadW4 : LoadSys 1 :=
  { loadW3 with
    pc := Function.update loadW3.pc 0 ThreadPC.done,
    lock := none }

/-- Witness for C3: the main theorem applied to the explicit four-step
trace of one caller, which ends with every caller done and exactly one
construction. -/
theorem lazy_load_at_most_once_witness :
    ReachLoad 1 false loadW4 ∧ loadW4.constructions ≤ 1 ∧
    (∀ t, loadW4.pc t = ThreadPC.done) ∧ loadW4.constructions = 1 := by
  have h01 : LoadStep loadW0 loadW1 :=
    LoadStep.acquire 0 loadW0 rfl rfl
  have h12 : LoadStep loadW1 loadW2 :=
    LoadStep.checkUnloaded 0 loadW1 (by decide) rfl rfl
  have h23 : LoadStep loadW2 loadW3 :=
    LoadStep.build 0 loadW2 (by decide) rfl
  have h34 : LoadStep loadW3 loadW4 :=
    LoadStep.release 0 loadW3 (by decide) rfl
  have hreach : ReachLoad 1 false loadW4 :=
    Relation.ReflTransGen.tail
      (Relation.ReflTransGen.tail
        (Relation.ReflTransGen.tail
          (Relation.ReflTransGen.tail Relation.ReflTransGen.refl h01)
          h12)
        h23)
      h34
  have hdone : ∀ t, loadW4.pc t = ThreadPC.done := by decide
  refine ⟨hreach, ?_, hdone, ?_⟩
  · exact (lazy_load_at_most_once 1 false loadW4 hreach).1
  · exact (lazy_load_at_most_once 1 false loadW4 hreach).2.2 rfl
      (by decide) hdone
